import Mathlib

/-!
Shallow embedding of the fmdb/audio-features repository, file
src/audio_features/app.py, together with proofs about the batch
orchestration it implements.

Modelling conventions:
- File paths and file names are Lean Strings; the byte content of a file
  is a List Nat.  The filesystem and the external collaborators (the
  mutagen tag reader, the librosa feature pipeline, hashlib) are bundled
  in an Env record: out-of-scope collaborators are opaque functions of
  the path, exactly at the interface boundary the program uses.
- hashlib.sha256 is modelled as an abstract streaming hash: an initial
  state, an update function applied to each 4096-byte chunk, and a
  hexdigest finalizer, all supplied by Env.  calculate_sha256 mirrors
  the chunked read loop of the source.
- A Python dict produced or consumed by the program is modelled by the
  ResultDict structure whose optional fields stand for optionally
  present keys; the pickled payload of a cache file is the same shape.
- The on-disk cache is a map from file name (hash hex plus ".pickle",
  the per-directory part of the path) to the state of that cache file;
  a file that raises on open or on pickle.load is CacheFile.corrupt.
- The ThreadPoolExecutor runs one job per discovered file and the jobs
  publish their results under a single lock; this is modelled by an
  explicit completion order: a list of jobs, required by the theorems
  to be a permutation of the discovered job list, processed
  sequentially.  os.cpu_count() or 4 is the cpu argument.
- BUILD_ID (read once from the environment) is the bid argument.
-/

namespace AudioFeatures

/-- Opaque payload of the librosa feature dict (mfcc, spectral_contrast,
chroma, tempo); the numeric feature extraction is an external
collaborator, so only identity of payloads matters. -/
abbrev Features := String

/-- The metadata dict built by extract_metadata.  The stat-derived and
mutagen-derived fields (file size, title, artist, album, year, genre,
isrc, duration, bitrate, sample rate, channels) come from external
collaborators and are bundled opaquely in the tags field. -/
structure Metadata where
  filename : String
  file_number : Nat
  lossless : Bool
  sha256 : String
  build_id : String
  tags : String
  deriving DecidableEq, Repr

/-- Functional update of the file_number key of a metadata dict. -/
def setFileNumber (m : Metadata) (n : Nat) : Metadata :=
  ⟨m.filename, n, m.lossless, m.sha256, m.build_id, m.tags⟩

/-- A Python result dict as handled by the program: the keys build_id,
metadata, features, error are optionally present (metadata is always
present in every dict the program itself builds).  The pickled value
inside a cache file has the same shape. -/
structure ResultDict where
  build_id : Option String
  metadata : Metadata
  features : Option Features
  error : Option String
  deriving DecidableEq, Repr

/-- The state of one on-disk cache file: either a deserializable pickled
dict, or a file whose open or pickle.load raises. -/
inductive CacheFile where
  | corrupt
  | val (v : ResultDict)
  deriving DecidableEq

/-- The cache directory: a map from cache file name to its state. -/
abbrev CacheState := String → Option CacheFile

/-- Pointwise write of one cache file. -/
def setCache (σ : CacheState) (k : String) (v : CacheFile) : CacheState :=
  fun k2 => if k2 = k then some v else σ k2

/-- Pointwise removal of one cache file. -/
def eraseCache (σ : CacheState) (k : String) : CacheState :=
  fun k2 => if k2 = k then none else σ k2

/-- The environment: filesystem content, external collaborators, the
abstract streaming hash, and the outcome of cache file writes.  An
Except.error models a raised exception carrying str(e). -/
structure Env where
  content : String → Except String (List Nat)
  tags : String → Except String String
  audioFeatures : String → Except String Features
  hashInit : String
  hashUpdate : String → List Nat → String
  hexdigest : String → String
  writeFails : String → Bool

/-- Replacement of the writeFails component of an environment. -/
def setWriteFails (env : Env) (wf : String → Bool) : Env :=
  ⟨env.content, env.tags, env.audioFeatures, env.hashInit, env.hashUpdate,
    env.hexdigest, wf⟩

/-- Streamed hashing loop of calculate_sha256: update the hash state
with one 4096-byte block per iteration until the read returns empty.
The first argument is fuel, instantiated with the length of the byte
list; every iteration consumes at least one byte, so the fuel never
runs out on the intended call. -/
def hashChunks (env : Env) : Nat → String → List Nat → String
  | _, st, [] => st
  | 0, st, _ :: _ => st
  | fuel + 1, st, b :: bs =>
      hashChunks env fuel (env.hashUpdate st ((b :: bs).take 4096)) ((b :: bs).drop 4096)

/-- Embedding of AudioProcessor.calculate_sha256: open the file, feed it
to the hash in 4096-byte blocks, return the hex digest.  A failing open
or read raises IOError, modelled by the error of env.content. -/
def calculate_sha256 (env : Env) (path : String) : Except String String :=
  match env.content path with
  | .error e => .error e
  | .ok bytes => .ok (env.hexdigest (hashChunks env bytes.length env.hashInit bytes))

/-- Embedding of AudioProcessor.get_cache_path: the cache file name is
the content hash followed by ".pickle" (the cache_dir prefix shared by
all entries is dropped from the model). -/
def get_cache_path (file_hash : String) : String := file_hash ++ ".pickle"

/-- Index of the last occurrence of a character in a list, if any. -/
def lastIdxOf (c : Char) : List Char → Option Nat
  | [] => none
  | a :: as =>
    match lastIdxOf c as with
    | some i => some (i + 1)
    | none => if a = c then some 0 else none

/-- Embedding of pathlib suffix: the substring from the last dot on,
empty when the last dot is absent, leading, or trailing (cpython:
i = name.rfind(chr(46)); name[i:] if 0 < i < len(name) - 1 else empty). -/
def pySuffix (s : String) : String :=
  match lastIdxOf '.' s.data with
  | some i => if 0 < i ∧ i < s.data.length - 1 then String.mk (s.data.drop i) else ""
  | none => ""

/-- ASCII lower-casing of one character (the extensions compared by the
program are ASCII). -/
def lowerChar (c : Char) : Char :=
  if 'A' ≤ c ∧ c ≤ 'Z' then Char.ofNat (c.toNat + 32) else c

/-- Embedding of str.lower restricted to ASCII. -/
def pyLower (s : String) : String := String.mk (s.data.map lowerChar)

/-- The supported extension set of the discovery filter. -/
def supportedExts : List String := [".mp3", ".flac"]

/-- Boolean lexicographic order on character lists, modelling Python
string and path comparison by code point. -/
def lexLe : List Char → List Char → Bool
  | [], _ => true
  | _ :: _, [] => false
  | a :: as, b :: bs =>
    if a.toNat < b.toNat then true
    else if b.toNat < a.toNat then false
    else lexLe as bs

/-- Path order used by sorted() over the globbed entries of one
directory (all entries share the directory prefix, so path order is
name order). -/
def pathLe (a b : String) : Prop := lexLe a.data b.data = true

instance : DecidableRel pathLe :=
  fun a b => inferInstanceAs (Decidable (lexLe a.data b.data = true))

/-- Embedding of AudioProcessor.extract_metadata: stat and hash the file
(both raise on an unreadable file), build the base dict stamped with the
current build id, then run the mutagen tag collaborator (which raises on
a parse failure).  The opaque tag/stat fields are bundled in tags. -/
def extract_metadata (env : Env) (bid : String) (path : String) (n : Nat) :
    Except String Metadata :=
  match calculate_sha256 env path with
  | .error e => .error e
  | .ok file_hash =>
    match env.tags path with
    | .error e => .error e
    | .ok tagBlock =>
      .ok ⟨path, n, pyLower (pySuffix path) == ".flac", file_hash, bid, tagBlock⟩

/-- Embedding of AudioProcessor.check_cache.  The source function only
reads the cache, so the returned state is the input state.  With caching
disabled it returns None before hashing; otherwise it hashes the file
(an unreadable file raises out of the function), and returns the pickled
dict only when its top-level build_id key equals the current build id;
an absent file, an unpicklable file (caught and logged), or a build id
mismatch all fall through to None. -/
def check_cache (uc : Bool) (env : Env) (bid : String) (σ : CacheState) (path : String) :
    Except String (Option ResultDict × CacheState) :=
  if uc = false then .ok (none, σ)
  else
    match calculate_sha256 env path with
    | .error e => .error e
    | .ok file_hash =>
      match σ (get_cache_path file_hash) with
      | some (.val v) =>
          if v.build_id = some bid then .ok (some v, σ) else .ok (none, σ)
      | some .corrupt => .ok (none, σ)
      | none => .ok (none, σ)

/-- Embedding of AudioProcessor.save_to_cache: no-op with caching
disabled; otherwise rehash the file (a failing read raises out of the
function, its call sits outside the try), then write the pickled dict;
a failing open or dump is caught and logged. -/
def save_to_cache (uc : Bool) (env : Env) (σ : CacheState) (path : String)
    (r : ResultDict) : Except String CacheState :=
  if uc = false then .ok σ
  else
    match calculate_sha256 env path with
    | .error e => .error e
    | .ok file_hash =>
      if env.writeFails (get_cache_path file_hash) then .ok σ
      else .ok (setCache σ (get_cache_path file_hash) (.val r))

/-- Ghost instrumentation: how often each extraction collaborator was
invoked by one job (extract_metadata, and the librosa feature block). -/
structure Trace where
  metaCalls : Nat
  featCalls : Nat
  deriving DecidableEq, Repr

/-- Embedding of AudioProcessor.calculate_audio_features: consult the
cache (a hit overwrites the cached metadata file_number with this job
index and returns, skipping extraction); on a miss extract metadata
(whose exceptions propagate, the call sits before the try), then run the
librosa feature block inside the try: a failure there yields the dict
with the metadata obtained so far and the error string; on success the
result dict is assembled, best-effort cached, and returned.  The second
component is the cache state after the job, the third the ghost trace. -/
def calculate_audio_features (uc : Bool) (env : Env) (bid : String) (σ : CacheState)
    (path : String) (n : Nat) : Except String ResultDict × CacheState × Trace :=
  match check_cache uc env bid σ path with
  | .error e => (.error e, σ, ⟨0, 0⟩)
  | .ok (some v, σ1) =>
      (.ok ⟨v.build_id, setFileNumber v.metadata n, v.features, v.error⟩, σ1, ⟨0, 0⟩)
  | .ok (none, σ1) =>
    match extract_metadata env bid path n with
    | .error e => (.error e, σ1, ⟨1, 0⟩)
    | .ok m =>
      match env.audioFeatures path with
      | .error e => (.ok ⟨none, m, none, some e⟩, σ1, ⟨1, 1⟩)
      | .ok feats =>
        match save_to_cache uc env σ1 path ⟨none, m, some feats, none⟩ with
        | .error e => (.ok ⟨none, m, none, some e⟩, σ1, ⟨1, 1⟩)
        | .ok σ2 => (.ok ⟨none, m, some feats, none⟩, σ2, ⟨1, 1⟩)

/-- Embedding of the process_file closure: run one job; an exception is
caught at the job boundary and appended to the errors list as the pair
of path and message; a returned dict carrying an error key goes to the
errors list, any other dict to the results list. -/
def process_file (uc : Bool) (env : Env) (bid : String) (σ : CacheState)
    (job : String × Nat) : CacheState × (ResultDict ⊕ (String × String)) :=
  match calculate_audio_features uc env bid σ job.1 job.2 with
  | (.error e, σ2, _) => (σ2, .inr (job.1, e))
  | (.ok r, σ2, _) =>
    match r.error with
    | some e => (σ2, .inr (job.1, e))
    | none => (σ2, .inl r)

/-- Shared aggregation state of one batch: the cache directory and the
two lists guarded by the results lock. -/
structure BatchAcc where
  cache : CacheState
  results : List ResultDict
  errors : List (String × String)

/-- One serialization of the worker pool: process the jobs in the given
completion order, each job appending to exactly one of the two lists. -/
def runJobs (uc : Bool) (env : Env) (bid : String) : BatchAcc → List (String × Nat) → BatchAcc
  | acc, [] => acc
  | acc, job :: rest =>
    match process_file uc env bid acc.cache job with
    | (σ2, .inl r) => runJobs uc env bid ⟨σ2, acc.results ++ [r], acc.errors⟩ rest
    | (σ2, .inr err) => runJobs uc env bid ⟨σ2, acc.results, acc.errors ++ [err]⟩ rest

/-- The existence and kind of the input path together with the immediate
directory entries seen by glob (which matches dot files too). -/
inductive InputPath where
  | file (name : String)
  | dir (entries : List String)
  | missing

/-- Embedding of the discovery step of process_audio_files: a missing
path raises typer.BadParameter; a single file becomes the sole job with
index 1 (no extension filter on this branch); a directory is filtered by
supported extension (case-insensitive), sorted, and enumerated from 1. -/
def discover_files : InputPath → Except String (List (String × Nat))
  | .missing => .error "BadParameter: input path does not exist"
  | .file p => .ok [(p, 1)]
  | .dir entries =>
    .ok ((List.enumFrom 1
      (List.insertionSort pathLe
        (entries.filter (fun f => pyLower (pySuffix f) ∈ supportedExts)))).map
      (fun p => (p.2, p.1)))

/-- Final ordering of the successes list: results.sort keyed by the
file_number of the metadata (a stable sort, modelled by insertion
sort, which is stable). -/
def byFileNumber (a b : ResultDict) : Prop :=
  a.metadata.file_number ≤ b.metadata.file_number

instance : DecidableRel byFileNumber :=
  fun a b => inferInstanceAs (Decidable (a.metadata.file_number ≤ b.metadata.file_number))

instance : IsTotal ResultDict byFileNumber :=
  ⟨fun a b => Nat.le_total a.metadata.file_number b.metadata.file_number⟩

instance : IsTrans ResultDict byFileNumber :=
  ⟨fun _ _ _ h1 h2 => Nat.le_trans h1 h2⟩

/-- Embedding of AudioProcessor.process_audio_files: discover the jobs,
size the pool as min of the cpu count and the job count (the
ThreadPoolExecutor constructor raises ValueError when that is zero), run
every job, then sort the successes by file_number and return both
lists.  The completion argument is the order in which the workers
publish their job results. -/
def process_audio_files (uc : Bool) (env : Env) (bid : String) (cpu : Nat)
    (σ : CacheState) (input : InputPath) (completion : List (String × Nat)) :
    Except String (List ResultDict × List (String × String)) :=
  match discover_files input with
  | .error e => .error e
  | .ok files =>
    if min cpu files.length = 0 then
      .error "ValueError: max_workers must be greater than 0"
    else
      .ok (List.insertionSort byFileNumber (runJobs uc env bid ⟨σ, [], []⟩ completion).results,
        (runJobs uc env bid ⟨σ, [], []⟩ completion).errors)

/-! Ghost abstraction layer: the observable part of a cache state is the
map of entries a lookup can currently return (the hit map); each job is
a function of the environment, its own job record, and the hit map. -/

/-- Left projection of one published job result. -/
def leftOf : ResultDict ⊕ (String × String) → Option ResultDict
  | .inl r => some r
  | .inr _ => none

/-- Right projection of one published job result. -/
def rightOf : ResultDict ⊕ (String × String) → Option (String × String)
  | .inl _ => none
  | .inr e => some e

/-- Hit map of a cache state: the entry a lookup under the given build
id can return for each cache file name. -/
def hitVal (bid : String) (σ : CacheState) (k : String) : Option ResultDict :=
  match σ k with
  | some (.val v) => if v.build_id = some bid then some v else none
  | some .corrupt => none
  | none => none

/-- Lookup outcome of check_cache as a function of the hit map. -/
def lookupItem (uc : Bool) (env : Env) (bid : String) (h : String → Option ResultDict)
    (path : String) : Except String (Option ResultDict) :=
  if uc = false then .ok none
  else
    match calculate_sha256 env path with
    | .error e => .error e
    | .ok file_hash => .ok (h (get_cache_path file_hash))

/-- Outcome and trace of calculate_audio_features as a function of the
hit map. -/
def calcItem (uc : Bool) (env : Env) (bid : String) (h : String → Option ResultDict)
    (path : String) (n : Nat) : Except String ResultDict × Trace :=
  match lookupItem uc env bid h path with
  | .error e => (.error e, ⟨0, 0⟩)
  | .ok (some v) => (.ok ⟨v.build_id, setFileNumber v.metadata n, v.features, v.error⟩, ⟨0, 0⟩)
  | .ok none =>
    match extract_metadata env bid path n with
    | .error e => (.error e, ⟨1, 0⟩)
    | .ok m =>
      match env.audioFeatures path with
      | .error e => (.ok ⟨none, m, none, some e⟩, ⟨1, 1⟩)
      | .ok feats => (.ok ⟨none, m, some feats, none⟩, ⟨1, 1⟩)

/-- Published result of one job as a function of the hit map. -/
def jobItem (uc : Bool) (env : Env) (bid : String) (h : String → Option ResultDict)
    (job : String × Nat) : ResultDict ⊕ (String × String) :=
  match (calcItem uc env bid h job.1 job.2).1 with
  | .error e => .inr (job.1, e)
  | .ok r =>
    match r.error with
    | some e => .inr (job.1, e)
    | none => .inl r

/-! Concrete environments, cache states and expected outputs used by the
witnesses and counterexamples. -/

/-- Filesystem with two readable audio files and everything else
unreadable. -/
def envContent : String → Except String (List Nat)
  | "a.mp3" => .ok [1]
  | "b.flac" => .ok [2]
  | _ => .error "IOError"

/-- Concrete streaming-hash update: append one digit per byte. -/
def sampleUpdate (st : String) (chunk : List Nat) : String :=
  st ++ String.mk (chunk.map (fun b => Char.ofNat (48 + b % 10)))

/-- Environment whose collaborators all succeed. -/
def sampleEnv : Env :=
  ⟨envContent, fun p => .ok ("tags:" ++ p), fun p => .ok ("features:" ++ p),
    "", sampleUpdate, fun st => st, fun _ => false⟩

/-- Environment whose librosa feature block always raises. -/
def featFailEnv : Env :=
  ⟨envContent, fun p => .ok ("tags:" ++ p), fun _ => .error "librosa error",
    "", sampleUpdate, fun st => st, fun _ => false⟩

/-- Environment holding two distinct paths with byte-identical content. -/
def dupEnv : Env :=
  ⟨fun p => if p = "x.mp3" ∨ p = "y.mp3" then .ok [5] else .error "IOError",
    fun p => .ok ("tags:" ++ p), fun p => .ok ("features:" ++ p),
    "", sampleUpdate, fun st => st, fun _ => false⟩

/-- Empty cache directory. -/
def emptyCache : CacheState := fun _ => none

/-- Metadata freshly extracted for a.mp3 under sampleEnv. -/
def mA : Metadata := ⟨"a.mp3", 1, false, "1", "development", "tags:a.mp3"⟩

/-- Metadata freshly extracted for b.flac under sampleEnv. -/
def mB : Metadata := ⟨"b.flac", 2, true, "2", "development", "tags:b.flac"⟩

/-- Fresh success dict for a.mp3. -/
def wA : ResultDict := ⟨none, mA, some "features:a.mp3", none⟩

/-- Fresh success dict for b.flac. -/
def wB : ResultDict := ⟨none, mB, some "features:b.flac", none⟩

/-- Expected ordered successes of the two-file batch. -/
def w1succ : List ResultDict := [wA, wB]

/-- Cached metadata whose nested build id differs from the entry's
top-level build_id key. -/
def cxMetadata : Metadata := ⟨"a.mp3", 7, false, "1", "other", "tags:a.mp3"⟩

/-- Cache entry that passes the top-level build_id validation while its
metadata carries a different build id. -/
def cxVal : ResultDict := ⟨some "development", cxMetadata, some "F", none⟩

/-- Cache holding cxVal under the digest of a.mp3. -/
def cxCache : CacheState := fun k => if k = "1.pickle" then some (.val cxVal) else none

/-- The success dict produced from a hit on cxVal at job index 1. -/
def cxResult : ResultDict :=
  ⟨some "development", ⟨"a.mp3", 1, false, "1", "other", "tags:a.mp3"⟩, some "F", none⟩

/-- Stale cache entry: top-level build_id from an older build. -/
def staleVal : ResultDict := ⟨some "old", ⟨"a.mp3", 3, false, "1", "old", "t"⟩, some "F", none⟩

/-- Cache holding staleVal under the digest of a.mp3. -/
def staleCache : CacheState := fun k => if k = "1.pickle" then some (.val staleVal) else none

theorem check_cache_spec (uc : Bool) (env : Env) (bid : String) (σ : CacheState) (p : String) :
    check_cache uc env bid σ p =
      match lookupItem uc env bid (hitVal bid σ) p with
      | .error e => .error e
      | .ok v => .ok (v, σ) := by
  cases uc with
  | false => rfl
  | true =>
    unfold check_cache lookupItem hitVal
    cases hc : calculate_sha256 env p with
    | error e => simp
    | ok fh =>
      cases hσ : σ (get_cache_path fh) with
      | none => simp [hσ]
      | some cf =>
        cases cf with
        | corrupt => simp [hσ]
        | val v =>
          by_cases hb : v.build_id = some bid
          · simp [hσ, hb]
          · simp [hσ, hb]

theorem extract_ok_sha (env : Env) (bid p : String) (n : Nat) (m : Metadata)
    (h : extract_metadata env bid p n = .ok m) :
    calculate_sha256 env p = .ok m.sha256 := by
  unfold extract_metadata at h
  cases hc : calculate_sha256 env p with
  | error e => rw [hc] at h; cases h
  | ok fh =>
    rw [hc] at h
    cases ht : env.tags p with
    | error e => rw [ht] at h; cases h
    | ok t => rw [ht] at h; cases h; rfl

theorem extract_ok_fields (env : Env) (bid p : String) (n : Nat) (m : Metadata)
    (h : extract_metadata env bid p n = .ok m) :
    m.file_number = n ∧ m.build_id = bid ∧ m.filename = p := by
  unfold extract_metadata at h
  cases hc : calculate_sha256 env p with
  | error e => rw [hc] at h; cases h
  | ok fh =>
    rw [hc] at h
    cases ht : env.tags p with
    | error e => rw [ht] at h; cases h
    | ok t => rw [ht] at h; cases h; exact ⟨rfl, rfl, rfl⟩

theorem save_ok (uc : Bool) (env : Env) (σ : CacheState) (p fh : String) (r : ResultDict)
    (h : calculate_sha256 env p = .ok fh) :
    save_to_cache uc env σ p r =
      .ok (if uc = false then σ
        else if env.writeFails (get_cache_path fh) then σ
        else setCache σ (get_cache_path fh) (.val r)) := by
  unfold save_to_cache
  by_cases hu : uc = false
  · simp [hu]
  · by_cases hw : env.writeFails (get_cache_path fh) = true
    · simp [hu, h, hw]
    · simp [hu, h, hw]

theorem hitVal_setCache (bid : String) (σ : CacheState) (k : String) (r : ResultDict)
    (hr : r.build_id = none) (h0 : hitVal bid σ k = none) :
    hitVal bid (setCache σ k (.val r)) = hitVal bid σ := by
  funext k2
  by_cases hk : k2 = k
  · subst hk
    rw [h0]
    unfold hitVal setCache
    simp [hr]
  · unfold hitVal setCache
    simp [hk]

theorem calc_spec (uc : Bool) (env : Env) (bid : String) (σ : CacheState) (p : String) (n : Nat) :
    (calculate_audio_features uc env bid σ p n).1 = (calcItem uc env bid (hitVal bid σ) p n).1
  ∧ (calculate_audio_features uc env bid σ p n).2.2 = (calcItem uc env bid (hitVal bid σ) p n).2
  ∧ hitVal bid (calculate_audio_features uc env bid σ p n).2.1 = hitVal bid σ := by
  unfold calculate_audio_features calcItem
  rw [check_cache_spec uc env bid σ p]
  cases lk : lookupItem uc env bid (hitVal bid σ) p with
  | error e => simp
  | ok vo =>
    cases vo with
    | some v => simp
    | none =>
      simp only []
      cases hx : extract_metadata env bid p n with
      | error e => simp
      | ok m =>
        cases hf : env.audioFeatures p with
        | error e => simp
        | ok feats =>
          have hsha := extract_ok_sha env bid p n m hx
          dsimp only
          rw [save_ok uc env σ p m.sha256 ⟨none, m, some feats, none⟩ hsha]
          by_cases hu : uc = false
          · simp [hu]
          · by_cases hw : env.writeFails (get_cache_path m.sha256) = true
            · simp [hu, hw]
            · simp only [hu, hw, if_false]
              refine ⟨by trivial, by trivial, ?_⟩
              refine hitVal_setCache bid σ (get_cache_path m.sha256) _ rfl ?_
              unfold lookupItem at lk
              rw [if_neg hu, hsha] at lk
              dsimp only at lk
              exact Except.ok.inj lk

theorem process_file_spec (uc : Bool) (env : Env) (bid : String) (σ : CacheState)
    (job : String × Nat) :
    (process_file uc env bid σ job).2 = jobItem uc env bid (hitVal bid σ) job
  ∧ hitVal bid (process_file uc env bid σ job).1 = hitVal bid σ := by
  obtain ⟨h1, _h2, h3⟩ := calc_spec uc env bid σ job.1 job.2
  unfold process_file jobItem
  rcases hc : calculate_audio_features uc env bid σ job.1 job.2 with ⟨res, σ2, t⟩
  rw [hc] at h1 h3
  simp only at h1 h3
  rw [← h1]
  cases res with
  | error e => exact ⟨by simp, by simpa using h3⟩
  | ok r =>
    cases hre : r.error with
    | some e => exact ⟨by simp [hre], by simp only [hre]; simpa using h3⟩
    | none => exact ⟨by simp [hre], by simp only [hre]; simpa using h3⟩

theorem runJobs_spec (uc : Bool) (env : Env) (bid : String) (jobs : List (String × Nat)) :
    ∀ acc : BatchAcc,
      (runJobs uc env bid acc jobs).results
        = acc.results ++ (jobs.map (jobItem uc env bid (hitVal bid acc.cache))).filterMap leftOf
    ∧ (runJobs uc env bid acc jobs).errors
        = acc.errors ++ (jobs.map (jobItem uc env bid (hitVal bid acc.cache))).filterMap rightOf
    ∧ hitVal bid (runJobs uc env bid acc jobs).cache = hitVal bid acc.cache := by
  induction jobs with
  | nil => intro acc; simp [runJobs]
  | cons job rest ih =>
    intro acc
    obtain ⟨hi, hv⟩ := process_file_spec uc env bid acc.cache job
    unfold runJobs
    rcases hp : process_file uc env bid acc.cache job with ⟨σ2, item⟩
    rw [hp] at hi hv
    simp only at hi hv
    cases item with
    | inl r =>
      obtain ⟨r1, r2, r3⟩ := ih ⟨σ2, acc.results ++ [r], acc.errors⟩
      refine ⟨?_, ?_, ?_⟩
      · rw [r1]; simp only [hv, List.map_cons, ← hi, List.filterMap_cons, leftOf,
          List.append_assoc, List.cons_append, List.nil_append]
      · rw [r2]; simp only [hv, List.map_cons, ← hi, List.filterMap_cons, rightOf]
      · rw [r3]; exact hv
    | inr err =>
      obtain ⟨r1, r2, r3⟩ := ih ⟨σ2, acc.results, acc.errors ++ [err]⟩
      refine ⟨?_, ?_, ?_⟩
      · rw [r1]; simp only [hv, List.map_cons, ← hi, List.filterMap_cons, leftOf]
      · rw [r2]; simp only [hv, List.map_cons, ← hi, List.filterMap_cons, rightOf,
          List.append_assoc, List.cons_append, List.nil_append]
      · rw [r3]; exact hv

theorem process_ok_elim (uc : Bool) (env : Env) (bid : String) (cpu : Nat) (σ : CacheState)
    (input : InputPath) (completion files : List (String × Nat))
    (succ : List ResultDict) (errs : List (String × String))
    (hd : discover_files input = .ok files)
    (h : process_audio_files uc env bid cpu σ input completion = .ok (succ, errs)) :
    min cpu files.length ≠ 0
  ∧ succ = List.insertionSort byFileNumber
      ((completion.map (jobItem uc env bid (hitVal bid σ))).filterMap leftOf)
  ∧ errs = (completion.map (jobItem uc env bid (hitVal bid σ))).filterMap rightOf := by
  unfold process_audio_files at h
  rw [hd] at h
  dsimp only at h
  by_cases hm : min cpu files.length = 0
  · rw [if_pos hm] at h; cases h
  · rw [if_neg hm] at h
    obtain ⟨r1, r2, _⟩ := runJobs_spec uc env bid completion ⟨σ, [], []⟩
    have h2 := Except.ok.inj h
    have hs := ((Prod.mk.injEq _ _ _ _).mp h2).1
    have he := ((Prod.mk.injEq _ _ _ _).mp h2).2
    refine ⟨hm, ?_, ?_⟩
    · rw [← hs, r1]; simp
    · rw [← he, r2]; simp

theorem sum_length_filterMap (l : List (ResultDict ⊕ (String × String))) :
    (l.filterMap leftOf).length + (l.filterMap rightOf).length = l.length := by
  induction l with
  | nil => rfl
  | cons a t ih =>
    cases a with
    | inl r => simp only [List.filterMap_cons, leftOf, rightOf, List.length_cons]; omega
    | inr e => simp only [List.filterMap_cons, leftOf, rightOf, List.length_cons]; omega

theorem calcItem_file_number (uc : Bool) (env : Env) (bid : String)
    (h : String → Option ResultDict) (p : String) (n : Nat) (r : ResultDict)
    (hc : (calcItem uc env bid h p n).1 = .ok r) :
    r.metadata.file_number = n := by
  unfold calcItem at hc
  cases lk : lookupItem uc env bid h p with
  | error e => rw [lk] at hc; cases hc
  | ok vo =>
    rw [lk] at hc
    cases vo with
    | some v => dsimp only at hc; cases hc; rfl
    | none =>
      dsimp only at hc
      cases hx : extract_metadata env bid p n with
      | error e => rw [hx] at hc; cases hc
      | ok m =>
        rw [hx] at hc
        cases hf : env.audioFeatures p with
        | error e => rw [hf] at hc; dsimp only at hc; cases hc
                     exact (extract_ok_fields env bid p n m hx).1
        | ok feats => rw [hf] at hc; dsimp only at hc; cases hc
                      exact (extract_ok_fields env bid p n m hx).1

theorem jobItem_inl (uc : Bool) (env : Env) (bid : String) (h : String → Option ResultDict)
    (job : String × Nat) (r : ResultDict) (hj : jobItem uc env bid h job = .inl r) :
    (calcItem uc env bid h job.1 job.2).1 = .ok r ∧ r.error = none := by
  unfold jobItem at hj
  cases hc : (calcItem uc env bid h job.1 job.2).1 with
  | error e => rw [hc] at hj; cases hj
  | ok r2 =>
    rw [hc] at hj
    dsimp only at hj
    cases hre : r2.error with
    | some e => rw [hre] at hj; cases hj
    | none => rw [hre] at hj; cases hj; exact ⟨rfl, hre⟩

theorem jobItem_file_number (uc : Bool) (env : Env) (bid : String)
    (h : String → Option ResultDict) (job : String × Nat) (r : ResultDict)
    (hj : jobItem uc env bid h job = .inl r) :
    r.metadata.file_number = job.2 :=
  calcItem_file_number uc env bid h job.1 job.2 r (jobItem_inl uc env bid h job r hj).1

theorem keys_sublist (uc : Bool) (env : Env) (bid : String) (h : String → Option ResultDict) :
    ∀ jobs : List (String × Nat),
      List.Sublist
        ((((jobs.map (jobItem uc env bid h)).filterMap leftOf).map
          (fun r => r.metadata.file_number)))
        (jobs.map Prod.snd) := by
  intro jobs
  induction jobs with
  | nil => simp
  | cons job rest ih =>
    cases hj : jobItem uc env bid h job with
    | inl r =>
      rw [List.map_cons, hj, List.filterMap_cons]
      simp only [leftOf, List.map_cons]
      rw [jobItem_file_number uc env bid h job r hj]
      exact List.Sublist.cons₂ _ ih
    | inr e =>
      rw [List.map_cons, hj, List.filterMap_cons]
      simp only [rightOf, leftOf, List.map_cons]
      exact List.Sublist.cons _ ih

theorem pairwise_lt_of_sorted_nodup :
    ∀ l : List ResultDict, List.Sorted byFileNumber l →
      (l.map (fun r => r.metadata.file_number)).Nodup →
      l.Pairwise (fun a b => a.metadata.file_number < b.metadata.file_number) := by
  intro l
  induction l with
  | nil => intro _ _; exact List.Pairwise.nil
  | cons a t ih =>
    intro hs hn
    rw [List.sorted_cons] at hs
    rw [List.map_cons, List.nodup_cons] at hn
    refine List.Pairwise.cons ?_ (ih hs.2 hn.2)
    intro b hb
    refine lt_of_le_of_ne (hs.1 b hb) ?_
    intro hEq
    exact hn.1 (by rw [hEq]; exact List.mem_map_of_mem (fun r => r.metadata.file_number) hb)

theorem sort_eq_of_perm (l1 l2 : List ResultDict) (hp : l1.Perm l2)
    (hn : (l1.map (fun r => r.metadata.file_number)).Nodup) :
    List.insertionSort byFileNumber l1 = List.insertionSort byFileNumber l2 := by
  have hp1 : (List.insertionSort byFileNumber l1).Perm l1 := List.perm_insertionSort _ l1
  have hp2 : (List.insertionSort byFileNumber l2).Perm l2 := List.perm_insertionSort _ l2
  have hperm : (List.insertionSort byFileNumber l1).Perm (List.insertionSort byFileNumber l2) :=
    (hp1.trans hp).trans hp2.symm
  have hn1 : ((List.insertionSort byFileNumber l1).map (fun r => r.metadata.file_number)).Nodup :=
    ((hp1.map _).nodup_iff).mpr hn
  have hn2 : ((List.insertionSort byFileNumber l2).map (fun r => r.metadata.file_number)).Nodup :=
    ((hp2.map _).nodup_iff).mpr (((hp.map _).nodup_iff).mp hn)
  have pw1 := pairwise_lt_of_sorted_nodup _ (List.sorted_insertionSort byFileNumber l1) hn1
  have pw2 := pairwise_lt_of_sorted_nodup _ (List.sorted_insertionSort byFileNumber l2) hn2
  exact @List.eq_of_perm_of_sorted ResultDict
    (fun a b => a.metadata.file_number < b.metadata.file_number)
    ⟨fun a b h1 h2 => absurd (Nat.lt_trans h1 h2) (Nat.lt_irrefl _)⟩ _ _ hperm pw1 pw2

theorem lexLe_total : ∀ a b : List Char, lexLe a b = true ∨ lexLe b a = true := by
  intro a
  induction a with
  | nil => intro b; left; rfl
  | cons x xs ih =>
    intro b
    cases b with
    | nil => right; rfl
    | cons y ys =>
      by_cases h1 : x.toNat < y.toNat
      · left; simp [lexLe, h1]
      · by_cases h2 : y.toNat < x.toNat
        · right; simp [lexLe, h2]
        · rcases ih ys with h | h
          · left; simp [lexLe, h1, h2, h]
          · right; simp [lexLe, h1, h2, h]

theorem lexLe_trans : ∀ a b c : List Char,
    lexLe a b = true → lexLe b c = true → lexLe a c = true := by
  intro a
  induction a with
  | nil => intro b c _ _; rfl
  | cons x xs ih =>
    intro b c hab hbc
    cases b with
    | nil => simp [lexLe] at hab
    | cons y ys =>
      cases c with
      | nil => simp [lexLe] at hbc
      | cons z zs =>
        simp only [lexLe] at hab hbc ⊢
        by_cases hxy : x.toNat < y.toNat
        · by_cases hyz : y.toNat < z.toNat
          · have hxz : x.toNat < z.toNat := Nat.lt_trans hxy hyz
            simp [hxz]
          · by_cases hzy : z.toNat < y.toNat
            · simp [hyz, hzy] at hbc
            · have hxz : x.toNat < z.toNat := by omega
              simp [hxz]
        · by_cases hyx : y.toNat < x.toNat
          · simp [hxy, hyx] at hab
          · have hab2 : lexLe xs ys = true := by simpa [hxy, hyx] using hab
            by_cases hyz : y.toNat < z.toNat
            · have hxz : x.toNat < z.toNat := by omega
              simp [hxz]
            · by_cases hzy : z.toNat < y.toNat
              · simp [hyz, hzy] at hbc
              · have hbc2 : lexLe ys zs = true := by simpa [hyz, hzy] using hbc
                have hxz : ¬ x.toNat < z.toNat := by omega
                have hzx : ¬ z.toNat < x.toNat := by omega
                simp only [hxz, hzx, if_false]
                exact ih ys zs hab2 hbc2

instance : IsTotal String pathLe := ⟨fun a b => lexLe_total a.data b.data⟩

instance : IsTrans String pathLe := ⟨fun a b c => lexLe_trans a.data b.data c.data⟩

theorem discover_indices (input : InputPath) (files : List (String × Nat))
    (hd : discover_files input = .ok files) :
    files.map Prod.snd = List.range' 1 files.length := by
  cases input with
  | missing => cases hd
  | file p => cases hd; rfl
  | dir entries =>
    cases hd
    rw [List.map_map, List.length_map]
    have hc : (Prod.snd ∘ fun p : Nat × String => (p.2, p.1)) = Prod.fst := rfl
    rw [hc, List.enumFrom_map_fst, List.enumFrom_length]

theorem discover_indices_nodup (input : InputPath) (files : List (String × Nat))
    (hd : discover_files input = .ok files) :
    (files.map Prod.snd).Nodup := by
  rw [discover_indices input files hd]
  exact List.nodup_range' 1 files.length

theorem discover_sorted (entries : List String) (files : List (String × Nat))
    (hd : discover_files (.dir entries) = .ok files) :
    List.Sorted pathLe (files.map Prod.fst) := by
  cases hd
  rw [List.map_map]
  have hc : (Prod.fst ∘ fun p : Nat × String => (p.2, p.1)) = Prod.snd := rfl
  rw [hc, List.enumFrom_map_snd]
  exact List.sorted_insertionSort pathLe _

theorem check_cache_some (uc : Bool) (env : Env) (bid : String) (σ : CacheState)
    (q : String) (w : ResultDict) (σ3 : CacheState)
    (h : check_cache uc env bid σ q = .ok (some w, σ3)) :
    w.build_id = some bid ∧ σ3 = σ := by
  unfold check_cache at h
  cases uc with
  | false =>
    rw [if_pos rfl] at h
    exact absurd (Except.ok.inj h)
      (fun hc2 => Option.noConfusion ((Prod.mk.injEq _ _ _ _).mp hc2).1)
  | true =>
    rw [if_neg (by decide : ¬(true = false))] at h
    cases hc : calculate_sha256 env q with
    | error e => rw [hc] at h; cases h
    | ok fh =>
      rw [hc] at h
      dsimp only at h
      cases hσ : σ (get_cache_path fh) with
      | none => rw [hσ] at h; simp at h
      | some cf =>
        rw [hσ] at h
        cases cf with
        | corrupt => simp at h
        | val v =>
          dsimp only at h
          by_cases hb : v.build_id = some bid
          · rw [if_pos hb] at h
            have h2 := (Prod.mk.injEq _ _ _ _).mp (Except.ok.inj h)
            have hw := Option.some.inj h2.1
            exact ⟨hw ▸ hb, h2.2.symm⟩
          · rw [if_neg hb] at h
            simp at h

theorem hitVal_some (bid : String) (σ : CacheState) (k : String) (v : ResultDict)
    (h : hitVal bid σ k = some v) :
    σ k = some (.val v) ∧ v.build_id = some bid := by
  unfold hitVal at h
  cases hσk : σ k with
  | none => rw [hσk] at h; cases h
  | some cf =>
    rw [hσk] at h
    cases cf with
    | corrupt => cases h
    | val w =>
      dsimp only at h
      by_cases hb : w.build_id = some bid
      · rw [if_pos hb] at h
        cases h
        exact ⟨rfl, hb⟩
      · rw [if_neg hb] at h; cases h

theorem calcItem_miss_trace (env : Env) (bid : String) (h : String → Option ResultDict)
    (p : String) (n : Nat) (hl : lookupItem true env bid h p = .ok none) :
    (calcItem true env bid h p n).2.metaCalls = 1 := by
  unfold calcItem
  rw [hl]
  dsimp only
  cases extract_metadata env bid p n with
  | error e => rfl
  | ok m =>
    dsimp only
    cases env.audioFeatures p with
    | error e => rfl
    | ok feats => rfl

theorem jobItem_build_id (uc : Bool) (env : Env) (bid : String)
    (h : String → Option ResultDict) (job : String × Nat) (r : ResultDict)
    (hh : ∀ (k : String) (v : ResultDict), h k = some v → v.metadata.build_id = bid)
    (hj : jobItem uc env bid h job = .inl r) :
    r.metadata.build_id = bid := by
  obtain ⟨hc, _⟩ := jobItem_inl uc env bid h job r hj
  unfold calcItem at hc
  cases lk : lookupItem uc env bid h job.1 with
  | error e => rw [lk] at hc; cases hc
  | ok vo =>
    rw [lk] at hc
    cases vo with
    | some v =>
      dsimp only at hc
      cases hc
      have hv : v.metadata.build_id = bid := by
        unfold lookupItem at lk
        cases uc with
        | false =>
          rw [if_pos rfl] at lk
          exact absurd (Except.ok.inj lk) (fun hc2 => Option.noConfusion hc2)
        | true =>
          rw [if_neg (by decide : ¬(true = false))] at lk
          cases hs : calculate_sha256 env job.1 with
          | error e => rw [hs] at lk; cases lk
          | ok fh =>
            rw [hs] at lk
            dsimp only at lk
            exact hh _ v (Except.ok.inj lk)
      exact hv
    | none =>
      dsimp only at hc
      cases hx : extract_metadata env bid job.1 job.2 with
      | error e => rw [hx] at hc; cases hc
      | ok m =>
        rw [hx] at hc
        cases hf : env.audioFeatures job.1 with
        | error e =>
          rw [hf] at hc; dsimp only at hc; cases hc
          exact (extract_ok_fields env bid job.1 job.2 m hx).2.1
        | ok feats =>
          rw [hf] at hc; dsimp only at hc; cases hc
          exact (extract_ok_fields env bid job.1 job.2 m hx).2.1

theorem hashChunks_setWriteFails (env : Env) (wf : String → Bool) :
    ∀ (fuel : Nat) (st : String) (l : List Nat),
      hashChunks (setWriteFails env wf) fuel st l = hashChunks env fuel st l := by
  intro fuel
  induction fuel with
  | zero => intro st l; cases l <;> rfl
  | succ f ih =>
    intro st l
    cases l with
    | nil => rfl
    | cons b bs =>
      unfold hashChunks
      exact ih _ _

theorem sha_setWriteFails (env : Env) (wf : String → Bool) (p : String) :
    calculate_sha256 (setWriteFails env wf) p = calculate_sha256 env p := by
  unfold calculate_sha256
  have hcontent : (setWriteFails env wf).content = env.content := rfl
  rw [hcontent]
  cases env.content p with
  | error e => rfl
  | ok bytes =>
    dsimp only
    rw [hashChunks_setWriteFails]
    rfl

theorem calcItem_setWriteFails (uc : Bool) (env : Env) (bid : String)
    (wf : String → Bool) (h : String → Option ResultDict) (p : String) (n : Nat) :
    calcItem uc (setWriteFails env wf) bid h p n = calcItem uc env bid h p n := by
  unfold calcItem lookupItem extract_metadata
  rw [sha_setWriteFails]
  dsimp only [setWriteFails]

/-! Claim theorems. -/

/-- C1: for every batch processed by process_audio_files, each discovered
qualifying file yields exactly one JobResult, appended to exactly one of
the successes or failures lists, so the two lengths sum to the number of
discovered files; no file is silently dropped. -/
theorem C1_partition (uc : Bool) (env : Env) (bid : String) (cpu : Nat) (σ : CacheState)
    (input : InputPath) (completion files : List (String × Nat))
    (succ : List ResultDict) (errs : List (String × String))
    (hd : discover_files input = .ok files)
    (hp : completion.Perm files)
    (hr : process_audio_files uc env bid cpu σ input completion = .ok (succ, errs)) :
    succ.length + errs.length = files.length := by
  obtain ⟨_, hs, he⟩ := process_ok_elim uc env bid cpu σ input completion files succ errs hd hr
  rw [hs, he, (List.perm_insertionSort byFileNumber _).length_eq, sum_length_filterMap,
    List.length_map]
  exact hp.length_eq

/-- C2: the successes list is strictly ascending in file_number, the
sequence indices are the contiguous assignment 1..N over the sorted
listing, the listing of a directory input is sorted, and the successes
list does not depend on the order in which the workers complete. -/
theorem C2_ordered_successes (uc : Bool) (env : Env) (bid : String) (cpu : Nat)
    (σ : CacheState) (input : InputPath) (completion files : List (String × Nat))
    (succ : List ResultDict) (errs : List (String × String))
    (hd : discover_files input = .ok files)
    (hp : completion.Perm files)
    (hr : process_audio_files uc env bid cpu σ input completion = .ok (succ, errs)) :
    files.map Prod.snd = List.range' 1 files.length
  ∧ List.Pairwise (fun a b => a.metadata.file_number < b.metadata.file_number) succ
  ∧ (∀ (completion2 : List (String × Nat)) (succ2 : List ResultDict)
        (errs2 : List (String × String)), completion2.Perm files →
        process_audio_files uc env bid cpu σ input completion2 = .ok (succ2, errs2) →
        succ2 = succ)
  ∧ (∀ entries : List String, input = .dir entries →
        List.Sorted pathLe (files.map Prod.fst)) := by
  obtain ⟨_, hs, _⟩ := process_ok_elim uc env bid cpu σ input completion files succ errs hd hr
  have hnodups : ∀ c2 : List (String × Nat), c2.Perm files →
      (((c2.map (jobItem uc env bid (hitVal bid σ))).filterMap leftOf).map
        (fun r => r.metadata.file_number)).Nodup := by
    intro c2 hp2
    refine List.Nodup.sublist (keys_sublist uc env bid (hitVal bid σ) c2) ?_
    exact ((hp2.map Prod.snd).nodup_iff).mpr (discover_indices_nodup input files hd)
  refine ⟨discover_indices input files hd, ?_, ?_, ?_⟩
  · rw [hs]
    refine pairwise_lt_of_sorted_nodup _ (List.sorted_insertionSort byFileNumber _) ?_
    exact ((List.perm_insertionSort byFileNumber _).map _).nodup_iff.mpr (hnodups completion hp)
  · intro c2 s2 e2 hp2 hr2
    obtain ⟨_, hs2, _⟩ := process_ok_elim uc env bid cpu σ input c2 files s2 e2 hd hr2
    rw [hs, hs2]
    exact sort_eq_of_perm _ _
      (((hp2.map (jobItem uc env bid (hitVal bid σ))).trans
        ((hp.map (jobItem uc env bid (hitVal bid σ))).symm)).filterMap leftOf)
      (hnodups c2 hp2)
  · intro entries hin
    subst hin
    exact discover_sorted entries files hd

/-- C3 counterexample: a single existing file whose extension is not in
the supported set still becomes the sole job; discovery does not produce
the empty batch that the claim asserts. -/
theorem C3_single_file_counterexample :
    discover_files (.file "c.txt") = .ok [("c.txt", 1)]
  ∧ pyLower (pySuffix "c.txt") ∉ supportedExts
  ∧ ([("c.txt", 1)] : List (String × Nat)) ≠ [] :=
  ⟨rfl, by decide, by decide⟩

/-- C3 amended: a single existing file always becomes the sole job with
sequence index 1, whatever its extension; the supported-extension filter
applies only to directory listings. -/
theorem C3_single_file_amended : ∀ p : String, discover_files (.file p) = .ok [(p, 1)] :=
  fun _ => rfl

/-- C4: an existing input with zero qualifying files makes
process_audio_files compute a worker pool size of zero, and the
ThreadPoolExecutor constructor raises ValueError, contradicting the
claimed empty BatchReport without an exception. -/
theorem C4_empty_batch_raises :
    ∀ (env : Env) (σ : CacheState) (completion : List (String × Nat)),
      discover_files (.dir ["c.txt"]) = .ok []
    ∧ process_audio_files true env "development" 4 σ (.dir ["c.txt"]) completion
        = .error "ValueError: max_workers must be greater than 0" :=
  fun _ _ _ => ⟨rfl, rfl⟩

/-- C5: check_cache returns an entry only when its stored top-level
build_id equals the current build id; a stale entry is treated exactly
as an absent one (identical job outcome and trace, metadata collaborator
re-invoked) and the lookup never modifies the cache state. -/
theorem C5_build_id_validation (uc : Bool) (env : Env) (bid : String) (σ : CacheState)
    (p fh : String) (n : Nat) (v : ResultDict)
    (hsha : calculate_sha256 env p = .ok fh)
    (hentry : σ (get_cache_path fh) = some (.val v))
    (hne : v.build_id ≠ some bid) :
    (∀ (σa : CacheState) (q : String) (w : ResultDict) (σb : CacheState),
        check_cache uc env bid σa q = .ok (some w, σb) → w.build_id = some bid ∧ σb = σa)
  ∧ check_cache uc env bid σ p = .ok (none, σ)
  ∧ (calculate_audio_features uc env bid σ p n).1
      = (calculate_audio_features uc env bid (eraseCache σ (get_cache_path fh)) p n).1
  ∧ (calculate_audio_features uc env bid σ p n).2.2
      = (calculate_audio_features uc env bid (eraseCache σ (get_cache_path fh)) p n).2.2
  ∧ (uc = true → (calculate_audio_features uc env bid σ p n).2.2.metaCalls = 1) := by
  have hEq : hitVal bid σ = hitVal bid (eraseCache σ (get_cache_path fh)) := by
    funext k2
    by_cases hk : k2 = get_cache_path fh
    · subst hk
      unfold hitVal eraseCache
      rw [hentry]
      simp [hne]
    · unfold hitVal eraseCache
      simp [hk]
  have hmiss : hitVal bid σ (get_cache_path fh) = none := by
    unfold hitVal
    rw [hentry]
    simp [hne]
  refine ⟨fun σa q w σb hcc => check_cache_some uc env bid σa q w σb hcc, ?_, ?_, ?_, ?_⟩
  · unfold check_cache
    cases uc with
    | false => rfl
    | true =>
      rw [if_neg (by decide : ¬(true = false)), hsha]
      dsimp only
      rw [hentry]
      dsimp only
      rw [if_neg hne]
  · rw [(calc_spec uc env bid σ p n).1,
      (calc_spec uc env bid (eraseCache σ (get_cache_path fh)) p n).1, hEq]
  · rw [(calc_spec uc env bid σ p n).2.1,
      (calc_spec uc env bid (eraseCache σ (get_cache_path fh)) p n).2.1, hEq]
  · intro hu
    subst hu
    rw [(calc_spec true env bid σ p n).2.1]
    refine calcItem_miss_trace env bid (hitVal bid σ) p n ?_
    unfold lookupItem
    rw [if_neg (by decide : ¬(true = false)), hsha]
    dsimp only
    rw [hmiss]

/-- C6: an unreadable or undeserializable cache file behaves exactly as
an absent one (identical job outcome and trace, and check_cache returns
None without raising), and a cache write failure never changes the job
result or its trace. -/
theorem C6_cache_failures_nonfatal (uc : Bool) (env : Env) (bid : String) (σ : CacheState)
    (p fh : String) (n : Nat)
    (hsha : calculate_sha256 env p = .ok fh) :
    (calculate_audio_features uc env bid (setCache σ (get_cache_path fh) .corrupt) p n).1
      = (calculate_audio_features uc env bid (eraseCache σ (get_cache_path fh)) p n).1
  ∧ (calculate_audio_features uc env bid (setCache σ (get_cache_path fh) .corrupt) p n).2.2
      = (calculate_audio_features uc env bid (eraseCache σ (get_cache_path fh)) p n).2.2
  ∧ check_cache uc env bid (setCache σ (get_cache_path fh) .corrupt) p
      = .ok (none, setCache σ (get_cache_path fh) .corrupt)
  ∧ (∀ wf : String → Bool,
      (calculate_audio_features uc (setWriteFails env wf) bid σ p n).1
        = (calculate_audio_features uc env bid σ p n).1
      ∧ (calculate_audio_features uc (setWriteFails env wf) bid σ p n).2.2
        = (calculate_audio_features uc env bid σ p n).2.2) := by
  have hEq : hitVal bid (setCache σ (get_cache_path fh) .corrupt)
      = hitVal bid (eraseCache σ (get_cache_path fh)) := by
    funext k2
    by_cases hk : k2 = get_cache_path fh
    · subst hk
      unfold hitVal setCache eraseCache
      simp
    · unfold hitVal setCache eraseCache
      simp [hk]
  refine ⟨?_, ?_, ?_, ?_⟩
  · rw [(calc_spec uc env bid (setCache σ (get_cache_path fh) .corrupt) p n).1,
      (calc_spec uc env bid (eraseCache σ (get_cache_path fh)) p n).1, hEq]
  · rw [(calc_spec uc env bid (setCache σ (get_cache_path fh) .corrupt) p n).2.1,
      (calc_spec uc env bid (eraseCache σ (get_cache_path fh)) p n).2.1, hEq]
  · unfold check_cache
    cases uc with
    | false => rfl
    | true =>
      rw [if_neg (by decide : ¬(true = false)), hsha]
      dsimp only
      unfold setCache
      simp
  · intro wf
    constructor
    · rw [(calc_spec uc (setWriteFails env wf) bid σ p n).1,
        (calc_spec uc env bid σ p n).1, calcItem_setWriteFails]
    · rw [(calc_spec uc (setWriteFails env wf) bid σ p n).2.1,
        (calc_spec uc env bid σ p n).2.1, calcItem_setWriteFails]

/-- C7: on a cache hit with caching enabled, the job result is the
cached dict with only the metadata file_number overwritten to this job
index, every other field unchanged, and neither extraction collaborator
is invoked. -/
theorem C7_cache_hit_uses_entry (env : Env) (bid : String) (σ : CacheState)
    (p fh : String) (n : Nat) (v : ResultDict)
    (hsha : calculate_sha256 env p = .ok fh)
    (hentry : σ (get_cache_path fh) = some (.val v))
    (hb : v.build_id = some bid)
    (herr : v.error = none) :
    process_file true env bid σ (p, n)
      = (σ, .inl ⟨v.build_id, setFileNumber v.metadata n, v.features, none⟩)
  ∧ (calculate_audio_features true env bid σ p n).2.2 = ⟨0, 0⟩ := by
  have hcc : check_cache true env bid σ p = .ok (some v, σ) := by
    unfold check_cache
    rw [if_neg (by decide : ¬(true = false)), hsha]
    dsimp only
    rw [hentry]
    dsimp only
    rw [if_pos hb]
  constructor
  · unfold process_file calculate_audio_features
    rw [hcc]
    dsimp only
    rw [herr]
  · unfold calculate_audio_features
    rw [hcc]

/-- C8: a metadata collaborator failure is caught at the job boundary
and recorded as the pair of path and message; a feature collaborator
failure yields the failure dict carrying the already-extracted metadata
and the message; collaborators are invoked at most once; and every job
contributes its own result independently of its siblings, the batch
never unwinding. -/
theorem C8_failure_isolation (uc : Bool) (env : Env) (bid : String) (σ : CacheState) :
    (∀ (p : String) (n : Nat) (e : String) (σ2 : CacheState),
        check_cache uc env bid σ p = .ok (none, σ2) →
        extract_metadata env bid p n = .error e →
        process_file uc env bid σ (p, n) = (σ2, .inr (p, e))
        ∧ (calculate_audio_features uc env bid σ p n).2.2 = ⟨1, 0⟩)
  ∧ (∀ (p : String) (n : Nat) (m : Metadata) (e : String) (σ2 : CacheState),
        check_cache uc env bid σ p = .ok (none, σ2) →
        extract_metadata env bid p n = .ok m →
        env.audioFeatures p = .error e →
        calculate_audio_features uc env bid σ p n = (.ok ⟨none, m, none, some e⟩, σ2, ⟨1, 1⟩)
        ∧ process_file uc env bid σ (p, n) = (σ2, .inr (p, e)))
  ∧ (∀ jobs : List (String × Nat),
        (runJobs uc env bid ⟨σ, [], []⟩ jobs).results
          = (jobs.map (jobItem uc env bid (hitVal bid σ))).filterMap leftOf
        ∧ (runJobs uc env bid ⟨σ, [], []⟩ jobs).errors
          = (jobs.map (jobItem uc env bid (hitVal bid σ))).filterMap rightOf) := by
  refine ⟨?_, ?_, ?_⟩
  · intro p n e σ2 hcc hx
    constructor
    · unfold process_file calculate_audio_features
      rw [hcc]
      dsimp only
      rw [hx]
    · unfold calculate_audio_features
      rw [hcc]
      dsimp only
      rw [hx]
  · intro p n m e σ2 hcc hx hf
    constructor
    · unfold calculate_audio_features
      rw [hcc]
      dsimp only
      rw [hx]
      dsimp only
      rw [hf]
    · unfold process_file calculate_audio_features
      rw [hcc]
      dsimp only
      rw [hx]
      dsimp only
      rw [hf]
  · intro jobs
    obtain ⟨r1, r2, _⟩ := runJobs_spec uc env bid jobs ⟨σ, [], []⟩
    exact ⟨by rw [r1]; simp, by rw [r2]; simp⟩

/-- C9: the content digest is a function of the file byte content only:
two paths with byte-identical content receive the same digest, whatever
their names. -/
theorem C9_digest_content_only (env : Env) (p1 p2 : String)
    (h : env.content p1 = env.content p2) :
    calculate_sha256 env p1 = calculate_sha256 env p2 := by
  unfold calculate_sha256
  rw [h]

/-- C10 counterexample: a cache entry whose top-level build_id matches
the current build id but whose metadata carries a different build id is
accepted by the validation, so a success whose metadata build id differs
from the current build id reaches the successes list. -/
theorem C10_counterexample :
    process_audio_files true sampleEnv "development" 4 cxCache (.file "a.mp3") [("a.mp3", 1)]
      = .ok ([cxResult], [])
  ∧ cxResult.metadata.build_id = "other"
  ∧ ("other" : String) ≠ "development" :=
  ⟨rfl, rfl, by decide⟩

/-- C10 amended: every success carries the current build id in its
metadata, provided every cache entry on disk whose top-level build_id is
present has a metadata build id equal to it; freshly extracted successes
always carry it, and check_cache validates only the top-level key. -/
theorem C10_build_id_invariant (uc : Bool) (env : Env) (bid : String) (cpu : Nat)
    (σ : CacheState) (input : InputPath) (completion : List (String × Nat))
    (succ : List ResultDict) (errs : List (String × String))
    (hσ : ∀ (k : String) (v : ResultDict) (b : String),
        σ k = some (.val v) → v.build_id = some b → v.metadata.build_id = b)
    (hr : process_audio_files uc env bid cpu σ input completion = .ok (succ, errs)) :
    ∀ r ∈ succ, r.metadata.build_id = bid := by
  intro r hrmem
  cases hdisc : discover_files input with
  | error e =>
    unfold process_audio_files at hr
    rw [hdisc] at hr
    cases hr
  | ok files =>
    obtain ⟨_, hs, _⟩ :=
      process_ok_elim uc env bid cpu σ input completion files succ errs hdisc hr
    rw [hs] at hrmem
    have hmem2 : r ∈ (completion.map (jobItem uc env bid (hitVal bid σ))).filterMap leftOf :=
      (List.perm_insertionSort byFileNumber _).mem_iff.mp hrmem
    obtain ⟨s, hsmem, hsome⟩ := List.mem_filterMap.mp hmem2
    obtain ⟨job, _, hjid⟩ := List.mem_map.mp hsmem
    cases s with
    | inl a =>
      have ha : a = r := Option.some.inj hsome
      subst ha
      refine jobItem_build_id uc env bid (hitVal bid σ) job a ?_ hjid
      intro k v hvk
      obtain ⟨hσk, hvb⟩ := hitVal_some bid σ k v hvk
      exact hσ k v bid hσk hvb
    | inr e2 => exact Option.noConfusion hsome

/-! Witnesses: each applies its claim theorem at a concrete input and
discharges the hypotheses there. -/

theorem C1_partition_witness :
    process_audio_files true sampleEnv "development" 4 emptyCache
        (.dir ["b.flac", "a.mp3", "c.txt"]) [("b.flac", 2), ("a.mp3", 1)] = .ok (w1succ, [])
  ∧ w1succ.length + ([] : List (String × String)).length = 2 :=
  ⟨rfl, C1_partition true sampleEnv "development" 4 emptyCache
    (.dir ["b.flac", "a.mp3", "c.txt"]) [("b.flac", 2), ("a.mp3", 1)]
    [("a.mp3", 1), ("b.flac", 2)] w1succ [] rfl (by decide) rfl⟩

theorem C2_ordered_successes_witness :
    ([("b.flac", 2), ("a.mp3", 1)] : List (String × Nat)).Perm [("a.mp3", 1), ("b.flac", 2)]
  ∧ List.Pairwise (fun a b => a.metadata.file_number < b.metadata.file_number) w1succ :=
  ⟨by decide,
    (C2_ordered_successes true sampleEnv "development" 4 emptyCache
      (.dir ["b.flac", "a.mp3", "c.txt"]) [("b.flac", 2), ("a.mp3", 1)]
      [("a.mp3", 1), ("b.flac", 2)] w1succ [] rfl (by decide) rfl).2.1⟩

theorem C5_build_id_validation_witness :
    check_cache true sampleEnv "development" staleCache "a.mp3" = .ok (none, staleCache)
  ∧ (calculate_audio_features true sampleEnv "development" staleCache "a.mp3" 1).2.2.metaCalls
      = 1 :=
  ⟨(C5_build_id_validation true sampleEnv "development" staleCache "a.mp3" "1" 1 staleVal
      rfl rfl (by decide)).2.1,
    (C5_build_id_validation true sampleEnv "development" staleCache "a.mp3" "1" 1 staleVal
      rfl rfl (by decide)).2.2.2.2 rfl⟩

theorem C6_cache_failures_nonfatal_witness :
    (calculate_audio_features true sampleEnv "development"
        (setCache emptyCache (get_cache_path "1") .corrupt) "a.mp3" 1).1
      = (calculate_audio_features true sampleEnv "development"
        (eraseCache emptyCache (get_cache_path "1")) "a.mp3" 1).1
  ∧ (calculate_audio_features true (setWriteFails sampleEnv (fun _ => true)) "development"
        emptyCache "a.mp3" 1).1
      = (calculate_audio_features true sampleEnv "development" emptyCache "a.mp3" 1).1 :=
  ⟨(C6_cache_failures_nonfatal true sampleEnv "development" emptyCache "a.mp3" "1" 1 rfl).1,
    ((C6_cache_failures_nonfatal true sampleEnv "development" emptyCache "a.mp3" "1" 1
      rfl).2.2.2 (fun _ => true)).1⟩

theorem C7_cache_hit_uses_entry_witness :
    process_file true sampleEnv "development" cxCache ("a.mp3", 1)
      = (cxCache, .inl ⟨some "development", setFileNumber cxMetadata 1, some "F", none⟩)
  ∧ (calculate_audio_features true sampleEnv "development" cxCache "a.mp3" 1).2.2 = ⟨0, 0⟩ :=
  C7_cache_hit_uses_entry sampleEnv "development" cxCache "a.mp3" "1" 1 cxVal rfl rfl rfl rfl

theorem C8_failure_isolation_witness :
    process_file false sampleEnv "development" emptyCache ("bad.mp3", 1)
      = (emptyCache, .inr ("bad.mp3", "IOError"))
  ∧ calculate_audio_features true featFailEnv "development" emptyCache "a.mp3" 1
      = (.ok ⟨none, mA, none, some "librosa error"⟩, emptyCache, ⟨1, 1⟩)
  ∧ (runJobs true sampleEnv "development" ⟨emptyCache, [], []⟩ [("a.mp3", 1)]).results
      = ([("a.mp3", 1)].map (jobItem true sampleEnv "development"
          (hitVal "development" emptyCache))).filterMap leftOf :=
  ⟨((C8_failure_isolation false sampleEnv "development" emptyCache).1 "bad.mp3" 1 "IOError"
      emptyCache rfl rfl).1,
    ((C8_failure_isolation true featFailEnv "development" emptyCache).2.1 "a.mp3" 1 mA
      "librosa error" emptyCache rfl rfl rfl).1,
    ((C8_failure_isolation true sampleEnv "development" emptyCache).2.2 [("a.mp3", 1)]).1⟩

theorem C9_digest_content_only_witness :
    dupEnv.content "x.mp3" = dupEnv.content "y.mp3"
  ∧ calculate_sha256 dupEnv "x.mp3" = calculate_sha256 dupEnv "y.mp3" :=
  ⟨rfl, C9_digest_content_only dupEnv "x.mp3" "y.mp3" rfl⟩

theorem C10_build_id_invariant_witness :
    process_audio_files true sampleEnv "development" 4 emptyCache (.file "a.mp3")
        [("a.mp3", 1)] = .ok ([wA], [])
  ∧ ∀ r ∈ [wA], r.metadata.build_id = "development" :=
  ⟨rfl, C10_build_id_invariant true sampleEnv "development" 4 emptyCache (.file "a.mp3")
    [("a.mp3", 1)] [wA] [] (fun _ _ _ h _ => Option.noConfusion h) rfl⟩

end AudioFeatures
